import Mathlib

/-!
A shallow embedding of the semantic-memory engine of the `symbiote-mcp`
repository: `src/memory/embeddings.py` (`EmbeddingService`) and
`src/memory/store.py` (`MemoryStore`), together with theorems checking the
specification's claims about them.

Modelling conventions:
* Python strings are `List Char` (`Str` below); Python floats are `ℚ`
  (exact arithmetic; floating-point rounding is out of scope).
* The sentence-transformers model is an abstract deterministic function
  `encode : Str → List ℚ` passed as a parameter; ChromaDB's cosine distance
  is likewise an abstract parameter `dist`.
* Python's `raise ValueError` (the spec's `InvalidInput`) is `Except.error`;
  the mutable ChromaDB collection is threaded explicitly as a
  `List MemoryRecord` in insertion order.
* `time.time()` and `datetime.now()` are passed in as explicit arguments
  (`now : Nat`, the truncated epoch second, and `ts : Str`, the ISO string).
-/

namespace Symbiote

/-- Python strings, modelled as lists of characters. -/
abbrev Str := List Char

/-- Python `str.strip()`: remove leading and trailing whitespace. -/
def pyStrip (s : Str) : Str :=
  ((s.dropWhile Char.isWhitespace).reverse.dropWhile Char.isWhitespace).reverse

/-- Python truthiness test `not s or not s.strip()` used by the validation code:
the string is empty or whitespace-only. -/
def isBlank (s : Str) : Bool :=
  s.isEmpty || (pyStrip s).isEmpty

/-- The error kind the engine raises: Python `ValueError`, the spec's
`InvalidInput`. -/
inductive Err where
  | invalidInput : String → Err
deriving DecidableEq, Repr

/-! ## Embedding service (`src/memory/embeddings.py`)

`model.encode` applied to a list of texts is modelled as elementwise
application of the same abstract `encode` used for a single text.
Modelled from the spec: the underlying sentence-transformers model is
external to the repository; the spec states the model is deterministic for a
fixed input and that batching "must be observably equivalent to calling
`embed` on each element independently". -/

/-- `EmbeddingService.generate_embedding` (embeddings.py lines 45-64): reject
empty/whitespace text, otherwise return the model's vector for the text. -/
def generate_embedding (encode : Str → List ℚ) (text : Str) : Except Err (List ℚ) :=
  if isBlank text then
    .error (.invalidInput "Cannot generate embedding for empty text")
  else
    .ok (encode text)

/-- `EmbeddingService.generate_embeddings_batch` (embeddings.py lines 66-88):
reject an empty list, reject the whole batch if any element is
empty/whitespace, otherwise encode every text in input order. -/
def generate_embeddings_batch (encode : Str → List ℚ) (texts : List Str) :
    Except Err (List (List ℚ)) :=
  if texts.isEmpty then
    .error (.invalidInput "Cannot generate embeddings for empty list")
  else if texts.any isBlank then
    .error (.invalidInput "Cannot generate embedding for empty text")
  else
    .ok (texts.map encode)

/-! ## Memory store (`src/memory/store.py`) -/

/-- One persisted ChromaDB entry: id, embedding, document and metadata
(timestamp string, plus the optional comma-joined tag string — absent when the
record was stored without tags). -/
structure MemoryRecord where
  memory_id : Str
  content : Str
  embedding : List ℚ
  timestamp : Str
  mtags : Option Str
deriving DecidableEq, Repr

/-- The dictionary `store_memory` returns (store.py lines 107-112). -/
structure StoreResult where
  memory_id : Str
  success : Bool
  timestamp : Str
  embedding_dimensions : Nat
deriving DecidableEq, Repr

/-- One formatted search result (store.py lines 171-177). -/
structure SearchItem where
  memory_id : Str
  content : Str
  timestamp : Str
  relevance_score : ℚ
  tags : Option (List Str)
deriving DecidableEq, Repr

/-- The dictionary `search_memory` returns (store.py lines 179-183). -/
structure SearchOutput where
  results : List SearchItem
  total_results : Nat
  query_embedding_generated : Bool
deriving DecidableEq, Repr

/-- Python truthiness of the `tags` argument (`if tags:`): a present,
non-empty list. -/
def tagsTruthy : Option (List Str) → Bool
  | some (_ :: _) => true
  | _ => false

/-- The underlying list of the optional `tags` argument. -/
def tagsList : Option (List Str) → List Str
  | some l => l
  | none => []

/-- Python `",".join(tags)` (store.py line 97). -/
def joinComma : List Str → Str
  | [] => []
  | [t] => t
  | t :: rest => t ++ ',' :: joinComma rest

/-- Helper for `splitComma`: accumulates the current field in reverse. -/
def splitCommaAux : Str → Str → List Str
  | [], acc => [acc.reverse]
  | c :: rest, acc =>
    if c = ',' then acc.reverse :: splitCommaAux rest []
    else splitCommaAux rest (c :: acc)

/-- Python `s.split(",")` (store.py line 169). -/
def splitComma (s : Str) : List Str :=
  splitCommaAux s []

/-- The id scheme of `store_memory` (store.py line 87):
`memory_id = f"mem_\x7bint(time.time())\x7d"` — the truncated epoch second,
nothing else. -/
def memoryId (now : Nat) : Str :=
  "mem_".data ++ (toString now).data

/-- `MemoryStore.store_memory` (store.py lines 57-112). Validation in source
order, then id generation, then embedding, then metadata construction, then
the append to the collection. `collection.add` is modelled from the spec as an
unconditional append: "Persist the record durably before returning", the store
being append-only. Returns the result dictionary and the post-call
collection. -/
def store_memory (encode : Str → List ℚ) (store : List MemoryRecord)
    (content : Str) (tags : Option (List Str)) (now : Nat) (ts : Str) :
    Except Err (StoreResult × List MemoryRecord) :=
  if isBlank content then
    .error (.invalidInput "Content cannot be empty")
  else if tagsTruthy tags && decide ((tagsList tags).length > 10) then
    .error (.invalidInput "Maximum 10 tags allowed")
  else if tagsTruthy tags && (tagsList tags).any isBlank then
    .error (.invalidInput "Tags cannot be empty")
  else if tagsTruthy tags && (tagsList tags).any (fun t => decide (t.length > 50)) then
    .error (.invalidInput "Tags must be maximum 50 characters")
  else
    match generate_embedding encode content with
    | .error e => .error e
    | .ok embedding =>
      let mtags : Option Str :=
        if tagsTruthy tags then some (joinComma (tagsList tags)) else none
      let record : MemoryRecord :=
        { memory_id := memoryId now, content := content, embedding := embedding,
          timestamp := ts, mtags := mtags }
      .ok ({ memory_id := memoryId now, success := true, timestamp := ts,
             embedding_dimensions := embedding.length }, store ++ [record])

/-- The collection after a `store_memory` call: a raised `ValueError` leaves
the collection untouched. -/
def storeAfter (store : List MemoryRecord)
    (r : Except Err (StoreResult × List MemoryRecord)) : List MemoryRecord :=
  match r with
  | .ok (_, st') => st'
  | .error _ => store

/-- `MemoryStore.get_memory_count` (store.py lines 185-191):
`collection.count()`. -/
def get_memory_count (store : List MemoryRecord) : Nat :=
  store.length

/-- The raw relevance expression of store.py line 161:
`max(0, (2 - distance) / 2 * 100)`. -/
def rawRelevance (distance : ℚ) : ℚ :=
  max 0 ((2 - distance) / 2 * 100)

/-- Python `round(x, 1)` (store.py line 175), modelled as exact rational
rounding to one decimal place (Python rounds float ties to even; no claim
depends on the tie direction). -/
def round1 (q : ℚ) : ℚ :=
  (⌊q * 10 + 1 / 2⌋ : ℚ) / 10

/-- Ranking order used by the similarity query: strictly smaller distance
first, ties broken by smaller insertion index. Each candidate carries the
record, its distance to the query and its insertion index. -/
def candLE (a b : MemoryRecord × ℚ × ℕ) : Prop :=
  a.2.1 < b.2.1 ∨ (a.2.1 = b.2.1 ∧ a.2.2 ≤ b.2.2)

instance : DecidableRel candLE := fun a b => by
  unfold candLE; infer_instance

instance : IsTotal (MemoryRecord × ℚ × ℕ) candLE where
  total a b := by
    rcases lt_trichotomy a.2.1 b.2.1 with h | h | h
    · exact Or.inl (Or.inl h)
    · rcases Nat.le_total a.2.2 b.2.2 with hi | hi
      · exact Or.inl (Or.inr ⟨h, hi⟩)
      · exact Or.inr (Or.inr ⟨h.symm, hi⟩)
    · exact Or.inr (Or.inl h)

instance : IsTrans (MemoryRecord × ℚ × ℕ) candLE where
  trans a b c hab hbc := by
    rcases hab with hab | ⟨hab, hab'⟩
    · rcases hbc with hbc | ⟨hbc, _⟩
      · exact Or.inl (hab.trans hbc)
      · exact Or.inl (hbc ▸ hab)
    · rcases hbc with hbc | ⟨hbc, hbc'⟩
      · exact Or.inl (hab ▸ hbc)
      · exact Or.inr ⟨hab.trans hbc, hab'.trans hbc'⟩

/-- The similarity query `collection.query(query_embeddings=[qe],
n_results=limit)` (store.py lines 142-145). Modelled from the spec: ChromaDB's
nearest-neighbour search is external to the repository; the spec states
"Select the `limit` records with the smallest distance (equivalently, highest
relevance); ties broken by insertion order (earlier-created record ranks
first) for determinism", with `dist` the cosine-distance metric. -/
def rankedCandidates (dist : List ℚ → List ℚ → ℚ) (store : List MemoryRecord)
    (queryEmbedding : List ℚ) (n : Nat) : List (MemoryRecord × ℚ × ℕ) :=
  let cands := store.enum.map (fun p => (p.2, dist queryEmbedding p.2.embedding, p.1))
  (cands.insertionSort candLE).take n

/-- The result-formatting loop body (store.py lines 150-177): relevance from
distance, rounded to one decimal; tags parsed back from the metadata string
when present and non-empty, `None` otherwise. -/
def formatResult (rec : MemoryRecord) (distance : ℚ) : SearchItem :=
  { memory_id := rec.memory_id
    content := rec.content
    timestamp := rec.timestamp
    relevance_score := round1 (rawRelevance distance)
    tags :=
      match rec.mtags with
      | some s => if s.isEmpty then none else some (splitComma s)
      | none => none }

/-- `MemoryStore.search_memory` (store.py lines 114-183): validate the query
and the limit, embed the query, run the similarity query, format each
candidate, and return the result dictionary. -/
def search_memory (encode : Str → List ℚ) (dist : List ℚ → List ℚ → ℚ)
    (store : List MemoryRecord) (query : Str) (limit : ℤ) :
    Except Err SearchOutput :=
  if isBlank query then
    .error (.invalidInput "Query cannot be empty")
  else if ¬(1 ≤ limit ∧ limit ≤ 20) then
    .error (.invalidInput "Limit must be between 1 and 20")
  else
    match generate_embedding encode query with
    | .error e => .error e
    | .ok qe =>
      let formatted := (rankedCandidates dist store qe limit.toNat).map
        (fun c => formatResult c.1 c.2.1)
      .ok { results := formatted, total_results := formatted.length,
            query_embedding_generated := true }

/-! ## Sample instantiations of the abstract model and metric,
used to evaluate the engine on concrete inputs. -/

/-- A concrete stand-in embedding model: every text maps to `[1, 0]`. -/
def sampleEncode : Str → List ℚ := fun _ => [1, 0]

/-- A concrete stand-in metric: constant distance 1 (inside the cosine
range `[0, 2]`). -/
def sampleDist : List ℚ → List ℚ → ℚ := fun _ _ => 1

/-! ## Helper lemmas -/

theorem ne_nil_of_isBlank_eq_false {s : Str} (h : isBlank s = false) : s ≠ [] := by
  intro hs
  subst hs
  simp [isBlank] at h

theorem round1_mono {q r : ℚ} (h : q ≤ r) : round1 q ≤ round1 r := by
  unfold round1
  have hf : ⌊q * 10 + 1 / 2⌋ ≤ ⌊r * 10 + 1 / 2⌋ := Int.floor_mono (by linarith)
  have hc : ((⌊q * 10 + 1 / 2⌋ : ℤ) : ℚ) ≤ ((⌊r * 10 + 1 / 2⌋ : ℤ) : ℚ) := by
    exact_mod_cast hf
  linarith

theorem round1_nonneg {q : ℚ} (h : 0 ≤ q) : 0 ≤ round1 q := by
  unfold round1
  have hf : (0 : ℤ) ≤ ⌊q * 10 + 1 / 2⌋ := by
    rw [Int.le_floor]
    push_cast
    linarith
  have hc : (0 : ℚ) ≤ ((⌊q * 10 + 1 / 2⌋ : ℤ) : ℚ) := by exact_mod_cast hf
  linarith

theorem round1_le_100 {q : ℚ} (h : q ≤ 100) : round1 q ≤ 100 := by
  unfold round1
  have hf : ⌊q * 10 + 1 / 2⌋ ≤ ⌊(1000 + 1 / 2 : ℚ)⌋ := Int.floor_mono (by linarith)
  have he : ⌊(1000 + 1 / 2 : ℚ)⌋ = 1000 := by norm_num
  have hc : ((⌊q * 10 + 1 / 2⌋ : ℤ) : ℚ) ≤ 1000 := by
    rw [he] at hf
    exact_mod_cast hf
  linarith

theorem rawRelevance_nonneg (d : ℚ) : 0 ≤ rawRelevance d :=
  le_max_left 0 _

theorem rawRelevance_le_100 {d : ℚ} (h : 0 ≤ d) : rawRelevance d ≤ 100 := by
  unfold rawRelevance
  apply max_le (by norm_num)
  linarith

theorem rawRelevance_antitone {d e : ℚ} (h : d ≤ e) : rawRelevance e ≤ rawRelevance d := by
  unfold rawRelevance
  apply max_le (le_max_left 0 _)
  apply le_max_of_le_right
  linarith

theorem splitCommaAux_no_comma (t : Str) (acc : Str) (h : ',' ∉ t) :
    splitCommaAux t acc = [acc.reverse ++ t] := by
  induction t generalizing acc with
  | nil => simp [splitCommaAux]
  | cons c rest ih =>
    have hc : c ≠ ',' := fun hc => h (hc ▸ List.mem_cons_self c rest)
    have hr : ',' ∉ rest := fun hr => h (List.mem_cons_of_mem c hr)
    rw [splitCommaAux, if_neg hc, ih (c :: acc) hr]
    simp

theorem splitCommaAux_append_comma (t l : Str) (acc : Str) (h : ',' ∉ t) :
    splitCommaAux (t ++ ',' :: l) acc = (acc.reverse ++ t) :: splitCommaAux l [] := by
  induction t generalizing acc with
  | nil => simp [splitCommaAux]
  | cons c rest ih =>
    have hc : c ≠ ',' := fun hc => h (hc ▸ List.mem_cons_self c rest)
    have hr : ',' ∉ rest := fun hr => h (List.mem_cons_of_mem c hr)
    rw [List.cons_append, splitCommaAux, if_neg hc, ih (c :: acc) hr]
    simp

theorem joinComma_cons_cons (t u : Str) (rest : List Str) :
    joinComma (t :: u :: rest) = t ++ ',' :: joinComma (u :: rest) := by
  rfl

theorem splitComma_joinComma (tl : List Str) (hne : tl ≠ [])
    (h : ∀ t ∈ tl, ',' ∉ t) : splitComma (joinComma tl) = tl := by
  induction tl with
  | nil => exact absurd rfl hne
  | cons t rest ih =>
    cases rest with
    | nil =>
      have ht : ',' ∉ t := h t (List.mem_cons_self t [])
      simp [joinComma, splitComma, splitCommaAux_no_comma t [] ht]
    | cons u rest' =>
      have ht : ',' ∉ t := h t (List.mem_cons_self t _)
      have h' : ∀ s ∈ u :: rest', ',' ∉ s := fun s hs => h s (List.mem_cons_of_mem t hs)
      rw [joinComma_cons_cons]
      unfold splitComma
      rw [splitCommaAux_append_comma t _ [] ht]
      simp only [List.reverse_nil, List.nil_append, List.cons.injEq, true_and]
      exact ih (by simp) h'

theorem joinComma_ne_nil (tl : List Str) (hne : tl ≠ [])
    (hb : ∀ t ∈ tl, t ≠ []) : joinComma tl ≠ [] := by
  cases tl with
  | nil => exact absurd rfl hne
  | cons t rest =>
    cases rest with
    | nil => exact hb t (List.mem_cons_self t [])
    | cons u rest' =>
      rw [joinComma_cons_cons]
      intro hcontra
      have := List.append_eq_nil.mp hcontra
      exact List.cons_ne_nil _ _ this.2

theorem rankedCandidates_sorted (dist : List ℚ → List ℚ → ℚ) (store : List MemoryRecord)
    (qe : List ℚ) (n : Nat) : List.Sorted candLE (rankedCandidates dist store qe n) :=
  List.Pairwise.sublist (List.take_sublist n _) (List.sorted_insertionSort candLE _)

theorem rankedCandidates_length (dist : List ℚ → List ℚ → ℚ) (store : List MemoryRecord)
    (qe : List ℚ) (n : Nat) :
    (rankedCandidates dist store qe n).length = min n store.length := by
  unfold rankedCandidates
  rw [List.length_take, List.length_insertionSort, List.length_map, List.enum_length]

theorem mem_rankedCandidates {dist : List ℚ → List ℚ → ℚ} {store : List MemoryRecord}
    {qe : List ℚ} {n : Nat} {x : MemoryRecord × ℚ × ℕ}
    (h : x ∈ rankedCandidates dist store qe n) :
    x.1 ∈ store ∧ x.2.1 = dist qe x.1.embedding := by
  unfold rankedCandidates at h
  have h1 := List.mem_of_mem_take h
  rw [List.mem_insertionSort] at h1
  obtain ⟨p, hp, rfl⟩ := List.mem_map.mp h1
  refine ⟨?_, rfl⟩
  rw [List.mem_enum_iff_getElem?] at hp
  obtain ⟨hlt, he⟩ := List.getElem?_eq_some.mp hp
  exact he ▸ List.getElem_mem hlt

theorem search_memory_ok (encode : Str → List ℚ) (dist : List ℚ → List ℚ → ℚ)
    (store : List MemoryRecord) (query : Str) (limit : ℤ)
    (hq : isBlank query = false) (hl : 1 ≤ limit ∧ limit ≤ 20) :
    search_memory encode dist store query limit =
      .ok { results := (rankedCandidates dist store (encode query) limit.toNat).map
              (fun c => formatResult c.1 c.2.1),
            total_results := ((rankedCandidates dist store (encode query) limit.toNat).map
              (fun c => formatResult c.1 c.2.1)).length,
            query_embedding_generated := true } := by
  unfold search_memory generate_embedding
  rw [hq]
  simp only [Bool.false_eq_true, if_false]
  rw [if_neg (not_not_intro hl)]

theorem search_memory_ok_inv {encode : Str → List ℚ} {dist : List ℚ → List ℚ → ℚ}
    {store : List MemoryRecord} {query : Str} {limit : ℤ} {out : SearchOutput}
    (hok : search_memory encode dist store query limit = .ok out) :
    isBlank query = false ∧ (1 ≤ limit ∧ limit ≤ 20) ∧
    out = { results := (rankedCandidates dist store (encode query) limit.toNat).map
              (fun c => formatResult c.1 c.2.1),
            total_results := ((rankedCandidates dist store (encode query) limit.toNat).map
              (fun c => formatResult c.1 c.2.1)).length,
            query_embedding_generated := true } := by
  by_cases hq : isBlank query = true
  · rw [search_memory, if_pos hq] at hok
    exact absurd hok (by simp)
  · have hq' : isBlank query = false := by
      cases h : isBlank query
      · rfl
      · exact absurd h hq
    by_cases hl : 1 ≤ limit ∧ limit ≤ 20
    · refine ⟨hq', hl, ?_⟩
      rw [search_memory_ok encode dist store query limit hq' hl] at hok
      exact (Except.ok.injEq _ _ ▸ hok.symm : _)
    · rw [search_memory, if_neg (by rw [hq']; simp), if_pos hl] at hok
      exact absurd hok (by simp)

theorem eq_false_of_ne_true {b : Bool} (h : ¬b = true) : b = false := by
  cases b
  · rfl
  · exact absurd rfl h

theorem tagsList_eq_nil_of_not_truthy {tags : Option (List Str)}
    (h : tagsTruthy tags = false) : tagsList tags = [] := by
  cases tags with
  | none => rfl
  | some l =>
    cases l with
    | nil => rfl
    | cons a l' => simp [tagsTruthy] at h

theorem store_memory_ok (encode : Str → List ℚ) (store : List MemoryRecord)
    (content : Str) (tags : Option (List Str)) (now : Nat) (ts : Str)
    (hc : isBlank content = false)
    (h10 : (tagsList tags).length ≤ 10)
    (hb : ∀ t ∈ tagsList tags, isBlank t = false)
    (h50 : ∀ t ∈ tagsList tags, t.length ≤ 50) :
    store_memory encode store content tags now ts =
      .ok ({ memory_id := memoryId now, success := true, timestamp := ts,
             embedding_dimensions := (encode content).length },
           store ++ [{ memory_id := memoryId now, content := content,
                       embedding := encode content, timestamp := ts,
                       mtags := if tagsTruthy tags then some (joinComma (tagsList tags))
                                else none }]) := by
  unfold store_memory generate_embedding
  rw [hc]
  have d10 : decide ((tagsList tags).length > 10) = false := by
    simp only [decide_eq_false_iff_not, gt_iff_lt, not_lt]
    exact h10
  have eb : (tagsList tags).any isBlank = false := by
    rw [List.any_eq_false]
    intro t ht
    rw [hb t ht]
    simp
  have e50 : (tagsList tags).any (fun t => decide (t.length > 50)) = false := by
    rw [List.any_eq_false]
    intro t ht
    simp only [decide_eq_true_eq, gt_iff_lt, not_lt]
    exact h50 t ht
  rw [d10, eb, e50]
  simp

theorem store_memory_ok_inv {encode : Str → List ℚ} {store : List MemoryRecord}
    {content : Str} {tags : Option (List Str)} {now : Nat} {ts : Str}
    {res : StoreResult} {st' : List MemoryRecord}
    (hok : store_memory encode store content tags now ts = .ok (res, st')) :
    isBlank content = false ∧
    (tagsList tags).length ≤ 10 ∧
    (tagsTruthy tags = true → ∀ t ∈ tagsList tags, isBlank t = false ∧ t.length ≤ 50) ∧
    st' = store ++ [{ memory_id := memoryId now, content := content,
                      embedding := encode content, timestamp := ts,
                      mtags := if tagsTruthy tags then some (joinComma (tagsList tags))
                               else none }] ∧
    res = { memory_id := memoryId now, success := true, timestamp := ts,
            embedding_dimensions := (encode content).length } := by
  unfold store_memory at hok
  split at hok
  · exact absurd hok (by simp)
  split at hok
  · exact absurd hok (by simp)
  split at hok
  · exact absurd hok (by simp)
  split at hok
  · exact absurd hok (by simp)
  rename_i hc h2 h3 h4
  have hc' : isBlank content = false := eq_false_of_ne_true hc
  rw [generate_embedding, if_neg (by rw [hc']; simp)] at hok
  simp only [Except.ok.injEq, Prod.mk.injEq] at hok
  have hand2 : (tagsTruthy tags && decide ((tagsList tags).length > 10)) = false :=
    eq_false_of_ne_true h2
  have hand3 : (tagsTruthy tags && (tagsList tags).any isBlank) = false :=
    eq_false_of_ne_true h3
  have hand4 : (tagsTruthy tags && (tagsList tags).any (fun t => decide (t.length > 50))) = false :=
    eq_false_of_ne_true h4
  refine ⟨hc', ?_, ?_, hok.2.symm, hok.1.symm⟩
  · cases htr : tagsTruthy tags with
    | false => rw [tagsList_eq_nil_of_not_truthy htr]; simp
    | true =>
      rw [htr, Bool.true_and] at hand2
      simp only [decide_eq_false_iff_not, gt_iff_lt, not_lt] at hand2
      exact hand2
  · intro htr t ht
    rw [htr, Bool.true_and, List.any_eq_false] at hand3 hand4
    refine ⟨eq_false_of_ne_true (hand3 t ht), ?_⟩
    have := hand4 t ht
    simpa using this

theorem search_memory_singleton (encode : Str → List ℚ) (dist : List ℚ → List ℚ → ℚ)
    (rec : MemoryRecord) (query : Str) (hq : isBlank query = false) :
    search_memory encode dist [rec] query 5 =
      .ok { results := [formatResult rec (dist (encode query) rec.embedding)],
            total_results := 1, query_embedding_generated := true } := by
  rw [search_memory_ok encode dist [rec] query 5 hq (by norm_num)]
  simp [rankedCandidates, List.insertionSort, List.orderedInsert]

/-- A concrete stored record used to evaluate search on a non-empty store. -/
def sampleRec1 : MemoryRecord :=
  { memory_id := "mem_1".data, content := "alpha".data, embedding := [1, 0],
    timestamp := "T1".data, mtags := none }

/-- A second concrete stored record, with tags. -/
def sampleRec2 : MemoryRecord :=
  { memory_id := "mem_2".data, content := "beta".data, embedding := [0, 1],
    timestamp := "T2".data, mtags := some ['p'] }

/-! ## Claims -/

/-- C1: the claim says distinct successful `store_memory` calls always return
distinct ids, even for rapid sequential calls within the same time resolution
unit. The code (store.py line 87) derives the id from the truncated epoch
second alone, so two successful calls within the same second — here both with
`int(time.time()) = 1700000000` — return the SAME id `mem_1700000000`: the
claim's required invariant fails on the code at this input. -/
theorem C1_same_second_id_collision :
    ∃ r1 st1 r2 st2,
      store_memory sampleEncode [] "first fact".data none 1700000000 "T1".data =
        .ok (r1, st1) ∧
      store_memory sampleEncode st1 "second fact".data none 1700000000 "T2".data =
        .ok (r2, st2) ∧
      r1.memory_id = r2.memory_id ∧
      r1.memory_id = "mem_1700000000".data :=
  ⟨_, _, _, _, rfl, rfl, rfl, rfl⟩

/-- C2 counterexample: the tag `"a,b"` passes the store's validation (1 tag,
non-empty, 3 ≤ 50 characters) but contains the flattening delimiter, so the
flatten-then-split round trip is NOT the identity: searching after storing it
reports the tags as `["a", "b"]`, not `["a,b"]`. -/
theorem C2_comma_tag_counterexample :
    ∃ res st' out,
      store_memory sampleEncode [] "note".data (some [['a', ',', 'b']]) 7 "T".data =
        .ok (res, st') ∧
      search_memory sampleEncode sampleDist st' "q".data 5 = .ok out ∧
      out.results.map (fun r => r.tags) = [some [['a'], ['b']]] ∧
      (some [['a'], ['b']] : Option (List Str)) ≠ some [['a', ',', 'b']] :=
  ⟨_, _, _, rfl, rfl, rfl, by decide⟩

/-- C2 (amended): for every valid tags list (non-empty, at most 10 entries,
each non-blank and at most 50 characters) in which no tag contains the comma
delimiter, storing a record with those tags and then retrieving it via
`search_memory` yields exactly the same tags list in the same order. -/
theorem C2_tags_roundtrip (encode : Str → List ℚ) (dist : List ℚ → List ℚ → ℚ)
    (content ts query : Str) (now : Nat) (tl : List Str)
    (hc : isBlank content = false) (hq : isBlank query = false)
    (hne : tl ≠ []) (h10 : tl.length ≤ 10)
    (hb : ∀ t ∈ tl, isBlank t = false) (h50 : ∀ t ∈ tl, t.length ≤ 50)
    (hcomma : ∀ t ∈ tl, ',' ∉ t) :
    ∃ res st' out,
      store_memory encode [] content (some tl) now ts = .ok (res, st') ∧
      search_memory encode dist st' query 5 = .ok out ∧
      out.results.map (fun r => r.tags) = [some tl] := by
  have htr : tagsTruthy (some tl) = true := by
    cases tl with
    | nil => exact absurd rfl hne
    | cons a l => rfl
  have hjoin : joinComma tl ≠ [] :=
    joinComma_ne_nil tl hne (fun t ht => ne_nil_of_isBlank_eq_false (hb t ht))
  have hie : (joinComma tl).isEmpty = false := by
    cases hj : joinComma tl
    · exact absurd hj hjoin
    · rfl
  refine ⟨_, _, _, store_memory_ok encode [] content (some tl) now ts hc h10 hb h50,
    search_memory_singleton encode dist _ query hq, ?_⟩
  simp only [List.map_cons, List.map_nil, formatResult]
  rw [htr]
  simp only [if_true, tagsList]
  rw [hie]
  simp only [Bool.false_eq_true, if_false]
  rw [splitComma_joinComma tl hne hcomma]

/-- C2 witness: a concrete valid comma-free tags list round-trips through a
store followed by a search. -/
theorem C2_tags_roundtrip_witness :
    ∃ res st' out,
      store_memory sampleEncode [] "content".data (some [['p'], ['q', 'r']]) 3 "T".data =
        .ok (res, st') ∧
      search_memory sampleEncode sampleDist st' "query".data 5 = .ok out ∧
      out.results.map (fun r => r.tags) = [some [['p'], ['q', 'r']]] :=
  C2_tags_roundtrip sampleEncode sampleDist "content".data "T".data "query".data 3
    [['p'], ['q', 'r']] (by decide) (by decide) (by decide) (by decide) (by decide)
    (by decide) (by decide)

/-- C4: for every non-blank content and valid tags, a successful
`store_memory` call increases `get_memory_count` by exactly one. -/
theorem C4_store_increments_count (encode : Str → List ℚ) (store : List MemoryRecord)
    (content : Str) (tags : Option (List Str)) (now : Nat) (ts : Str)
    (hc : isBlank content = false)
    (h10 : (tagsList tags).length ≤ 10)
    (hb : ∀ t ∈ tagsList tags, isBlank t = false)
    (h50 : ∀ t ∈ tagsList tags, t.length ≤ 50) :
    ∃ res st', store_memory encode store content tags now ts = .ok (res, st') ∧
      get_memory_count st' = get_memory_count store + 1 := by
  refine ⟨_, _, store_memory_ok encode store content tags now ts hc h10 hb h50, ?_⟩
  simp [get_memory_count]

/-- C4 witness: storing a concrete record into a store of size zero yields a
count of one. -/
theorem C4_store_increments_count_witness :
    ∃ res st',
      store_memory sampleEncode [] "User prefers dark mode".data (some [['p']]) 9 "T".data =
        .ok (res, st') ∧
      get_memory_count st' = get_memory_count [] + 1 :=
  C4_store_increments_count sampleEncode [] "User prefers dark mode".data (some [['p']])
    9 "T".data (by decide) (by decide) (by decide) (by decide)

/-- C3: whenever `search_memory` succeeds and the metric stays in the cosine
range `[0, 2]`, every returned relevance score lies in `[0, 100]`, the result
list is sorted by non-increasing relevance score, and the ranked candidate
list is sorted by non-decreasing distance with equal-distance ties ranked by
insertion order (earlier-created record first). -/
theorem C3_scores_bounded_sorted (encode : Str → List ℚ) (dist : List ℚ → List ℚ → ℚ)
    (store : List MemoryRecord) (query : Str) (limit : ℤ) (out : SearchOutput)
    (hrange : ∀ u v, 0 ≤ dist u v ∧ dist u v ≤ 2)
    (hok : search_memory encode dist store query limit = .ok out) :
    (∀ r ∈ out.results, 0 ≤ r.relevance_score ∧ r.relevance_score ≤ 100) ∧
    out.results.Pairwise (fun a b => b.relevance_score ≤ a.relevance_score) ∧
    (rankedCandidates dist store (encode query) limit.toNat).Pairwise
      (fun a b => a.2.1 ≤ b.2.1 ∧ (a.2.1 = b.2.1 → a.2.2 ≤ b.2.2)) := by
  obtain ⟨hq, hl, hout⟩ := search_memory_ok_inv hok
  have hres : out.results = (rankedCandidates dist store (encode query) limit.toNat).map
      (fun c => formatResult c.1 c.2.1) := by rw [hout]
  have hsorted := rankedCandidates_sorted dist store (encode query) limit.toNat
  refine ⟨?_, ?_, ?_⟩
  · intro r hr
    rw [hres, List.mem_map] at hr
    obtain ⟨c, hc, rfl⟩ := hr
    obtain ⟨hmem, hdist⟩ := mem_rankedCandidates hc
    constructor
    · exact round1_nonneg (rawRelevance_nonneg _)
    · exact round1_le_100 (rawRelevance_le_100 (by rw [hdist]; exact (hrange _ _).1))
  · rw [hres, List.pairwise_map]
    refine hsorted.imp ?_
    intro a b hab
    have hd : a.2.1 ≤ b.2.1 := by
      rcases hab with h | ⟨h, _⟩
      · exact le_of_lt h
      · exact le_of_eq h
    exact round1_mono (rawRelevance_antitone hd)
  · refine hsorted.imp ?_
    intro a b hab
    rcases hab with h | ⟨h, hi⟩
    · exact ⟨le_of_lt h, fun he => absurd he (ne_of_lt h)⟩
    · exact ⟨le_of_eq h, fun _ => hi⟩

/-- C3 witness: a concrete two-record search with a constant in-range metric
satisfies the bounds, the descending sort and the tie-break order. -/
theorem C3_scores_bounded_sorted_witness :
    ∃ out, search_memory sampleEncode sampleDist [sampleRec1, sampleRec2] "q".data 5 =
        .ok out ∧
      ((∀ r ∈ out.results, 0 ≤ r.relevance_score ∧ r.relevance_score ≤ 100) ∧
       out.results.Pairwise (fun a b => b.relevance_score ≤ a.relevance_score) ∧
       (rankedCandidates sampleDist [sampleRec1, sampleRec2]
           (sampleEncode "q".data) (5 : ℤ).toNat).Pairwise
         (fun a b => a.2.1 ≤ b.2.1 ∧ (a.2.1 = b.2.1 → a.2.2 ≤ b.2.2))) := by
  refine ⟨_, rfl, C3_scores_bounded_sorted sampleEncode sampleDist [sampleRec1, sampleRec2]
    "q".data 5 _ (fun u v => ⟨by norm_num [sampleDist], by norm_num [sampleDist]⟩) rfl⟩

/-- C5: every record returned by a successful `search_memory` call carries the
relevance score `round(max(0, (2 - d) / 2 * 100), 1)` where `d` is the metric
distance between the query embedding and a stored record's embedding; the
clamp makes the score non-negative for every distance, even one above 2. -/
theorem C5_relevance_formula (encode : Str → List ℚ) (dist : List ℚ → List ℚ → ℚ)
    (store : List MemoryRecord) (query : Str) (limit : ℤ) (out : SearchOutput)
    (hok : search_memory encode dist store query limit = .ok out) :
    (∀ r ∈ out.results, ∃ rec ∈ store,
        r.memory_id = rec.memory_id ∧
        r.relevance_score = round1 (rawRelevance (dist (encode query) rec.embedding))) ∧
    (∀ d : ℚ, 0 ≤ round1 (rawRelevance d)) := by
  obtain ⟨hq, hl, hout⟩ := search_memory_ok_inv hok
  constructor
  · intro r hr
    have hres : out.results = (rankedCandidates dist store (encode query) limit.toNat).map
        (fun c => formatResult c.1 c.2.1) := by rw [hout]
    rw [hres, List.mem_map] at hr
    obtain ⟨c, hc, rfl⟩ := hr
    obtain ⟨hmem, hdist⟩ := mem_rankedCandidates hc
    exact ⟨c.1, hmem, rfl, by rw [← hdist]; rfl⟩
  · intro d
    exact round1_nonneg (rawRelevance_nonneg d)

/-- C5 witness: a concrete search whose single result's score matches the
formula, plus the clamp at a distance above 2. -/
theorem C5_relevance_formula_witness :
    ∃ out, search_memory sampleEncode sampleDist [sampleRec1] "q".data 5 = .ok out ∧
      ((∀ r ∈ out.results, ∃ rec ∈ [sampleRec1],
          r.memory_id = rec.memory_id ∧
          r.relevance_score =
            round1 (rawRelevance (sampleDist (sampleEncode "q".data) rec.embedding))) ∧
       (∀ d : ℚ, 0 ≤ round1 (rawRelevance d))) := by
  refine ⟨_, rfl, C5_relevance_formula sampleEncode sampleDist [sampleRec1] "q".data 5 _ rfl⟩

/-- C6: for every non-blank query and limit in `[1, 20]`, `search_memory`
succeeds and returns at most `limit` results and at least
`min(limit, count())` results, with `total_results` equal to the length of the
results list. -/
theorem C6_result_count_bounds (encode : Str → List ℚ) (dist : List ℚ → List ℚ → ℚ)
    (store : List MemoryRecord) (query : Str) (limit : ℤ)
    (hq : isBlank query = false) (hl : 1 ≤ limit ∧ limit ≤ 20) :
    ∃ out, search_memory encode dist store query limit = .ok out ∧
      out.results.length ≤ limit.toNat ∧
      min limit.toNat (get_memory_count store) ≤ out.results.length ∧
      out.total_results = out.results.length := by
  refine ⟨_, search_memory_ok encode dist store query limit hq hl, ?_, ?_, rfl⟩
  · rw [List.length_map, rankedCandidates_length]
    exact min_le_left _ _
  · rw [List.length_map, rankedCandidates_length]
    exact le_rfl

/-- C6 witness: a concrete search over a one-record store with limit 5 returns
exactly `min(5, 1) = 1` result. -/
theorem C6_result_count_bounds_witness :
    ∃ out, search_memory sampleEncode sampleDist [sampleRec1] "q".data 5 = .ok out ∧
      out.results.length ≤ (5 : ℤ).toNat ∧
      min (5 : ℤ).toNat (get_memory_count [sampleRec1]) ≤ out.results.length ∧
      out.total_results = out.results.length :=
  C6_result_count_bounds sampleEncode sampleDist [sampleRec1] "q".data 5
    (by decide) (by decide)

/-- C7: each of the six validation failures — blank content, blank query,
limit below 1, limit above 20, more than 10 tags, a tag over 50 characters —
deterministically raises `InvalidInput` (Python `ValueError`), leaves the
stored record set unchanged, and happens before any embedding is generated
(the outcome is independent of the embedding function). -/
theorem C7_validation_failures (encode encode' : Str → List ℚ)
    (dist : List ℚ → List ℚ → ℚ) (store : List MemoryRecord)
    (content : Str) (tags : Option (List Str)) (now : Nat) (ts : Str)
    (query : Str) (limit : ℤ) :
    (isBlank content = true →
      store_memory encode store content tags now ts =
        .error (.invalidInput "Content cannot be empty") ∧
      store_memory encode store content tags now ts =
        store_memory encode' store content tags now ts ∧
      storeAfter store (store_memory encode store content tags now ts) = store) ∧
    (isBlank content = false → tagsTruthy tags = true → 10 < (tagsList tags).length →
      store_memory encode store content tags now ts =
        .error (.invalidInput "Maximum 10 tags allowed") ∧
      store_memory encode store content tags now ts =
        store_memory encode' store content tags now ts ∧
      storeAfter store (store_memory encode store content tags now ts) = store) ∧
    (isBlank content = false → tagsTruthy tags = true → (tagsList tags).length ≤ 10 →
      (∀ t ∈ tagsList tags, isBlank t = false) → (∃ t ∈ tagsList tags, 50 < t.length) →
      store_memory encode store content tags now ts =
        .error (.invalidInput "Tags must be maximum 50 characters") ∧
      store_memory encode store content tags now ts =
        store_memory encode' store content tags now ts ∧
      storeAfter store (store_memory encode store content tags now ts) = store) ∧
    (isBlank query = true →
      search_memory encode dist store query limit =
        .error (.invalidInput "Query cannot be empty") ∧
      search_memory encode dist store query limit =
        search_memory encode' dist store query limit) ∧
    (isBlank query = false → limit < 1 →
      search_memory encode dist store query limit =
        .error (.invalidInput "Limit must be between 1 and 20") ∧
      search_memory encode dist store query limit =
        search_memory encode' dist store query limit) ∧
    (isBlank query = false → 20 < limit →
      search_memory encode dist store query limit =
        .error (.invalidInput "Limit must be between 1 and 20") ∧
      search_memory encode dist store query limit =
        search_memory encode' dist store query limit) := by
  refine ⟨?_, ?_, ?_, ?_, ?_, ?_⟩
  · intro hc
    refine ⟨?_, ?_, ?_⟩ <;> simp [store_memory, storeAfter, hc]
  · intro hc htr h10
    have d10 : (tagsTruthy tags && decide ((tagsList tags).length > 10)) = true := by
      rw [htr, Bool.true_and]
      simpa using h10
    refine ⟨?_, ?_, ?_⟩ <;> simp [store_memory, storeAfter, hc, d10]
  · intro hc htr h10 hb h50
    have d10 : (tagsTruthy tags && decide ((tagsList tags).length > 10)) = false := by
      rw [htr, Bool.true_and]
      simpa using h10
    have db : (tagsTruthy tags && (tagsList tags).any isBlank) = false := by
      rw [htr, Bool.true_and, List.any_eq_false]
      intro t ht
      rw [hb t ht]
      simp
    have d50 : (tagsTruthy tags && (tagsList tags).any (fun t => decide (t.length > 50))) =
        true := by
      rw [htr, Bool.true_and, List.any_eq_true]
      obtain ⟨t, ht, h⟩ := h50
      exact ⟨t, ht, by simpa using h⟩
    refine ⟨?_, ?_, ?_⟩ <;> simp [store_memory, storeAfter, hc, d10, db, d50]
  · intro hq
    constructor <;> simp [search_memory, hq]
  · intro hq hlim
    have hnl : ¬(1 ≤ limit ∧ limit ≤ 20) := fun h => absurd h.1 (not_le.mpr hlim)
    constructor <;> simp [search_memory, hq, hnl]
  · intro hq hlim
    have hnl : ¬(1 ≤ limit ∧ limit ≤ 20) := fun h => absurd h.2 (not_le.mpr hlim)
    constructor <;> simp [search_memory, hq, hnl]

/-- C7 witness: each of the six validation failures demonstrated at a concrete
input, with the stored record set unchanged where a store was attempted. -/
theorem C7_validation_failures_witness :
    (store_memory sampleEncode [] "".data none 0 "T".data =
       .error (.invalidInput "Content cannot be empty") ∧
     storeAfter [] (store_memory sampleEncode [] "".data none 0 "T".data) = []) ∧
    (store_memory sampleEncode [] "c".data (some (List.replicate 11 ['t'])) 0 "T".data =
       .error (.invalidInput "Maximum 10 tags allowed") ∧
     storeAfter [] (store_memory sampleEncode []
       "c".data (some (List.replicate 11 ['t'])) 0 "T".data) = []) ∧
    (store_memory sampleEncode [] "c".data (some [List.replicate 51 'x']) 0 "T".data =
       .error (.invalidInput "Tags must be maximum 50 characters") ∧
     storeAfter [] (store_memory sampleEncode []
       "c".data (some [List.replicate 51 'x']) 0 "T".data) = []) ∧
    search_memory sampleEncode sampleDist [] " ".data 5 =
      .error (.invalidInput "Query cannot be empty") ∧
    search_memory sampleEncode sampleDist [] "q".data 0 =
      .error (.invalidInput "Limit must be between 1 and 20") ∧
    search_memory sampleEncode sampleDist [] "q".data 21 =
      .error (.invalidInput "Limit must be between 1 and 20") := by
  have w1 := (C7_validation_failures sampleEncode sampleEncode sampleDist []
    "".data none 0 "T".data "q".data 5).1 (by decide)
  have w2 := (C7_validation_failures sampleEncode sampleEncode sampleDist []
    "c".data (some (List.replicate 11 ['t'])) 0 "T".data "q".data 5).2.1
    (by decide) (by decide) (by decide)
  have w3 := (C7_validation_failures sampleEncode sampleEncode sampleDist []
    "c".data (some [List.replicate 51 'x']) 0 "T".data "q".data 5).2.2.1
    (by decide) (by decide) (by decide) (by decide) ⟨List.replicate 51 'x', by decide, by decide⟩
  have w4 := (C7_validation_failures sampleEncode sampleEncode sampleDist []
    "c".data none 0 "T".data " ".data 5).2.2.2.1 (by decide)
  have w5 := (C7_validation_failures sampleEncode sampleEncode sampleDist []
    "c".data none 0 "T".data "q".data 0).2.2.2.2.1 (by decide) (by decide)
  have w6 := (C7_validation_failures sampleEncode sampleEncode sampleDist []
    "c".data none 0 "T".data "q".data 21).2.2.2.2.2 (by decide) (by decide)
  exact ⟨⟨w1.1, w1.2.2⟩, ⟨w2.1, w2.2.2⟩, ⟨w3.1, w3.2.2⟩, w4.1, w5.1, w6.1⟩

/-- C8: `generate_embeddings_batch` fails with `InvalidInput` exactly when the
list is empty or some element is blank, and on success returns one vector per
input in input order, each equal to what `generate_embedding` returns for the
corresponding text. -/
theorem C8_batch_pointwise (encode : Str → List ℚ) (texts : List Str) :
    ((∃ e, generate_embeddings_batch encode texts = .error e) ↔
      (texts = [] ∨ ∃ t ∈ texts, isBlank t = true)) ∧
    (∀ vs, generate_embeddings_batch encode texts = .ok vs →
      vs.length = texts.length ∧
      ∀ i : ℕ, ∀ t ∈ texts[i]?, ∃ v, vs[i]? = some v ∧
        generate_embedding encode t = .ok v) := by
  cases hnil : texts.isEmpty with
  | true =>
    have hempty : texts = [] := by
      cases texts with
      | nil => rfl
      | cons a l => simp [List.isEmpty] at hnil
    subst hempty
    refine ⟨⟨fun _ => Or.inl rfl, fun _ => ⟨_, rfl⟩⟩, ?_⟩
    intro vs hvs
    rw [generate_embeddings_batch] at hvs
    exact absurd hvs (by simp)
  | false =>
    cases hany : texts.any isBlank with
    | true =>
      have hb : generate_embeddings_batch encode texts =
          .error (.invalidInput "Cannot generate embedding for empty text") := by
        rw [generate_embeddings_batch, if_neg (by rw [hnil]; simp), if_pos hany]
      refine ⟨⟨fun _ => Or.inr (by simpa [List.any_eq_true] using hany),
        fun _ => ⟨_, hb⟩⟩, ?_⟩
      intro vs hvs
      rw [hb] at hvs
      exact absurd hvs (by simp)
    | false =>
      have hb : generate_embeddings_batch encode texts = .ok (texts.map encode) := by
        rw [generate_embeddings_batch, if_neg (by rw [hnil]; simp), hany]
        simp
      have hnb : ∀ t ∈ texts, isBlank t = false :=
        fun t ht => eq_false_of_ne_true (List.any_eq_false.mp hany t ht)
      constructor
      · constructor
        · rintro ⟨e, he⟩
          rw [hb] at he
          exact absurd he (by simp)
        · rintro (h | ⟨t, ht, hbl⟩)
          · subst h
            simp [List.isEmpty] at hnil
          · exact absurd hbl (by rw [hnb t ht]; simp)
      · intro vs hvs
        rw [hb] at hvs
        injection hvs with hvs
        subst hvs
        refine ⟨List.length_map _ _, ?_⟩
        intro i t ht
        have ht' : texts[i]? = some t := ht
        rw [List.getElem?_map, ht']
        refine ⟨encode t, rfl, ?_⟩
        have htm : t ∈ texts := by
          obtain ⟨hlt, he⟩ := List.getElem?_eq_some.mp ht'
          exact he ▸ List.getElem_mem hlt
        rw [generate_embedding, if_neg (by rw [hnb t htm]; simp)]

/-- C8 witness: a concrete two-text batch succeeds and agrees positionally
with single-text embedding; a batch containing a blank text fails. -/
theorem C8_batch_pointwise_witness :
    (∃ vs, generate_embeddings_batch sampleEncode ["a".data, "bb".data] = .ok vs ∧
      vs.length = 2 ∧
      ∃ v, vs[0]? = some v ∧ generate_embedding sampleEncode "a".data = .ok v) ∧
    (∃ e, generate_embeddings_batch sampleEncode ["a".data, " ".data] = .error e) := by
  constructor
  · have h := (C8_batch_pointwise sampleEncode ["a".data, "bb".data]).2 _ rfl
    exact ⟨_, rfl, h.1, h.2 0 "a".data rfl⟩
  · exact (C8_batch_pointwise sampleEncode ["a".data, " ".data]).1.mpr
      (Or.inr ⟨" ".data, by decide, by decide⟩)

/-- C9: for every non-blank query and limit in `[1, 20]`, `search_memory` on an
empty store succeeds with an empty results list, `total_results = 0` and
`query_embedding_generated = true`; moreover the flag is `true` whenever the
call returns at all. -/
theorem C9_empty_store_search (encode : Str → List ℚ) (dist : List ℚ → List ℚ → ℚ)
    (query : Str) (limit : ℤ)
    (hq : isBlank query = false) (hl : 1 ≤ limit ∧ limit ≤ 20) :
    search_memory encode dist [] query limit =
      .ok { results := [], total_results := 0, query_embedding_generated := true } ∧
    (∀ store out, search_memory encode dist store query limit = .ok out →
      out.query_embedding_generated = true) := by
  constructor
  · rw [search_memory_ok encode dist [] query limit hq hl]
    simp [rankedCandidates]
  · intro store out hok
    obtain ⟨_, _, hout⟩ := search_memory_ok_inv hok
    rw [hout]

/-- C9 witness: a concrete search over the empty store returns no results and
the embedded-query flag set. -/
theorem C9_empty_store_search_witness :
    search_memory sampleEncode sampleDist [] "anything".data 5 =
      .ok { results := [], total_results := 0, query_embedding_generated := true } ∧
    (∀ store out, search_memory sampleEncode sampleDist store "anything".data 5 = .ok out →
      out.query_embedding_generated = true) :=
  C9_empty_store_search sampleEncode sampleDist "anything".data 5 (by decide) (by decide)

/-- C10: storing with tags `None` or `[]` skips tag validation, persists no
tags metadata, and a search reports that record's tags as `None`; a record
successfully stored with a non-empty tags list never has its tags reported as
`None`. -/
theorem C10_optional_tags (encode : Str → List ℚ) (dist : List ℚ → List ℚ → ℚ)
    (content ts query : Str) (now : Nat)
    (hc : isBlank content = false) (hq : isBlank query = false) :
    (∀ tags0 : Option (List Str), tags0 = none ∨ tags0 = some [] →
      ∃ res st', store_memory encode [] content tags0 now ts = .ok (res, st') ∧
        (∀ rec ∈ st', rec.mtags = none) ∧
        ∃ out, search_memory encode dist st' query 5 = .ok out ∧
          out.results.map (fun r => r.tags) = [none]) ∧
    (∀ store tl res st', tl ≠ [] →
      store_memory encode store content (some tl) now ts = .ok (res, st') →
      ∃ rec, st' = store ++ [rec] ∧ rec.mtags ≠ none ∧
        ∀ d : ℚ, (formatResult rec d).tags ≠ none) := by
  constructor
  · rintro tags0 (rfl | rfl) <;>
    · refine ⟨_, _, store_memory_ok encode [] content _ now ts hc (by simp [tagsList])
        (by simp [tagsList]) (by simp [tagsList]), ?_,
        _, search_memory_singleton encode dist _ query hq, rfl⟩
      intro rec hrec
      simp only [List.nil_append, List.mem_singleton] at hrec
      subst hrec
      rfl
  · intro store tl res st' hne hok
    obtain ⟨_, _, htags, hst, _⟩ := store_memory_ok_inv hok
    have htr : tagsTruthy (some tl) = true := by
      cases tl with
      | nil => exact absurd rfl hne
      | cons a l => rfl
    have hb := htags htr
    have hjoin : joinComma tl ≠ [] :=
      joinComma_ne_nil tl hne (fun t ht => ne_nil_of_isBlank_eq_false (hb t ht).1)
    have hie : (joinComma tl).isEmpty = false := by
      cases hj : joinComma tl
      · exact absurd hj hjoin
      · rfl
    refine ⟨_, hst, ?_, ?_⟩
    · rw [htr]
      simp [tagsList]
    · intro d
      simp only [formatResult]
      rw [htr]
      simp only [if_true, tagsList]
      rw [hie]
      simp

/-- C10 witness: a concrete record stored without tags is reported with tags
`None`, and a concrete record stored with one tag is not. -/
theorem C10_optional_tags_witness :
    (∃ res st', store_memory sampleEncode [] "c".data none 4 "T".data = .ok (res, st') ∧
      (∀ rec ∈ st', rec.mtags = none) ∧
      ∃ out, search_memory sampleEncode sampleDist st' "q".data 5 = .ok out ∧
        out.results.map (fun r => r.tags) = [none]) ∧
    (∃ res st' rec, store_memory sampleEncode [] "c".data (some [['p']]) 4 "T".data =
        .ok (res, st') ∧
      st' = [] ++ [rec] ∧ rec.mtags ≠ none ∧
      ∀ d : ℚ, (formatResult rec d).tags ≠ none) := by
  have h := C10_optional_tags sampleEncode sampleDist "c".data "T".data "q".data 4
    (by decide) (by decide)
  refine ⟨h.1 none (Or.inl rfl), ?_⟩
  obtain ⟨rec, hst, hm, hf⟩ := h.2 [] [['p']] _ _ (by decide) rfl
  exact ⟨_, _, rec, rfl, hst, hm, hf⟩

end Symbiote
